import Mathlib

/-! Shallow embedding of the `fixed_width` Rust crate: the field model
(`FieldSet` / `FieldConfig`), the read engine (`src/fixed_width/src/de.rs`)
and the write-path padding rules. Record bytes are modelled as `List Char`
with one char per byte (the ASCII fragment), so UTF-8 decoding always
succeeds in the model; the claims under study never exercise multi-byte
text or `InvalidUtf8`. -/

namespace FixedWidth

/-- Modelled from the spec: the crate root (`lib.rs`) defining the field model is
absent from `src/`. `Justify` is the justification enum (`Left | Right`) named by
spec §3 and the derive layer's docs; the default is `Left`. -/
inductive Justify
  | Left
  | Right
deriving DecidableEq, Repr

/-- Modelled from the spec: the single-field descriptor (`FieldSpec`, spec §3) of
the absent `lib.rs`: a half-open byte range, an optional display name, a pad
character (default space) and a justification (default `Left`) — exactly the
fields that `de.rs` and the derive layer access (`range`, `name`, `pad_with`,
`justify`). -/
structure FieldConfig where
  rangeStart : Nat
  rangeEnd : Nat
  name : Option String
  pad_with : Char
  justify : Justify
deriving DecidableEq, Repr

/-- Modelled from the spec: the recursive field tree (`FieldNode`, spec §3) of the
absent `lib.rs`: `Item` is a leaf descriptor, `Seq` an ordered group, matching the
constructors `FieldSet::Item` / `FieldSet::Seq` pattern-matched throughout
`de.rs`. -/
inductive FieldSet
  | Item (f : FieldConfig)
  | Seq (xs : List FieldSet)
deriving Repr

/-- Leaf construction defaults of `FieldSet::new_field(start..end)`: no name, pad
character space, `Left` justification (spec §3, derive-layer docs). -/
def newFieldConfig (s e : Nat) : FieldConfig :=
  { rangeStart := s, rangeEnd := e, name := none, pad_with := ' ',
    justify := Justify.Left }

/-- Modelled from the spec: `FieldSet::new_field` of the absent `lib.rs`. -/
def FieldSet.new_field (s e : Nat) : FieldSet :=
  FieldSet.Item (newFieldConfig s e)

/-- Modelled from the spec: the builder `FieldSet::name` of the absent `lib.rs`. -/
def FieldSet.name : FieldSet → String → FieldSet
  | FieldSet.Item f, n => FieldSet.Item { f with name := some n }
  | fs, _ => fs

/-- Modelled from the spec: the builder `FieldSet::pad_with` of the absent
`lib.rs`. -/
def FieldSet.pad_with : FieldSet → Char → FieldSet
  | FieldSet.Item f, c => FieldSet.Item { f with pad_with := c }
  | fs, _ => fs

/-- Modelled from the spec: the builder `FieldSet::justify` of the absent
`lib.rs`. -/
def FieldSet.justify : FieldSet → Justify → FieldSet
  | FieldSet.Item f, j => FieldSet.Item { f with justify := j }
  | fs, _ => fs

/-- Modelled from the spec: iterating a `FieldSet` (the `IntoIterator` impl of the
absent `lib.rs`, used by `Deserializer::new`) yields the children of a `Seq` and
the single leaf of an `Item`, giving the "peekable ordered sequence of FieldNode"
of spec §3; every doc-test and unit test in `de.rs` relies on a `Seq` iterating
its children. -/
def FieldSet.intoIter : FieldSet → List FieldSet
  | FieldSet.Item f => [FieldSet.Item f]
  | FieldSet.Seq xs => xs

/-- Error kinds of `DeserializeError` in `de.rs` (the payloads of the UTF-8 and
parse variants are dropped in the model; the `String` payloads are kept). -/
inductive DeserializeError
  | Message (msg : String)
  | Unsupported (msg : String)
  | UnexpectedEndOfRecord
  | InvalidUtf8
  | ParseBoolError
  | ParseIntError
  | ParseFloatError
  | WontImplement
deriving DecidableEq, Repr

/-- Constructors of `DeserializeError` that realise the spec's `UnsupportedShape`
error kind (spec §7 lists it for self-describing targets and non-unit enum
variants): `Unsupported` and `WontImplement`. -/
def DeserializeError.isUnsupportedShape : DeserializeError → Bool
  | DeserializeError.Unsupported _ => true
  | DeserializeError.WontImplement => true
  | _ => false

/-- Constructors of `DeserializeError` that are parse-failure kinds. -/
def DeserializeError.isParseFailure : DeserializeError → Bool
  | DeserializeError.ParseBoolError => true
  | DeserializeError.ParseIntError => true
  | DeserializeError.ParseFloatError => true
  | _ => false

/-- State of `Deserializer` (de.rs:218-221): the peekable field iterator and the
input bytes. -/
structure Deserializer where
  fields : List FieldSet
  input : List Char

/-- `Deserializer::new` (de.rs:249-254). -/
def Deserializer.new (input : List Char) (fs : FieldSet) : Deserializer :=
  { fields := fs.intoIter, input := input }

/-- Rust `slice::get(start..end)`: `some` exactly when `start ≤ end ∧ end ≤ len`. -/
def sliceGet (input : List Char) (s e : Nat) : Option (List Char) :=
  if s ≤ e ∧ e ≤ input.length then some ((input.drop s).take (e - s)) else none

/-- Rust `str::trim` on the ASCII model: drop whitespace from both ends. -/
def rustTrim (s : List Char) : List Char :=
  ((s.dropWhile Char.isWhitespace).reverse.dropWhile Char.isWhitespace).reverse

/-- `Deserializer::skip_field` (de.rs:276-278): advance the iterator, ignoring the
field (a no-op when no fields remain, as `Iterator::next` just returns `None`). -/
def Deserializer.skipField (d : Deserializer) : Deserializer :=
  { d with fields := d.fields.tail }

/-- `Deserializer::peek_bytes` (de.rs:280-291): look at the next field without
consuming it; a `Seq` head or an exhausted iterator or an out-of-bounds range all
yield `UnexpectedEndOfRecord`. -/
def Deserializer.peekBytes (d : Deserializer) : Except DeserializeError (List Char) :=
  match d.fields with
  | FieldSet.Item f :: _ =>
    match sliceGet d.input f.rangeStart f.rangeEnd with
    | some bs => Except.ok bs
    | none => Except.error DeserializeError.UnexpectedEndOfRecord
  | FieldSet.Seq _ :: _ => Except.error DeserializeError.UnexpectedEndOfRecord
  | [] => Except.error DeserializeError.UnexpectedEndOfRecord

/-- `Deserializer::next_bytes` (de.rs:293-304): consume the next field, then slice
the input at its range; the bounds check happens here, for each field as it is
consumed. -/
def Deserializer.nextBytes (d : Deserializer) :
    Except DeserializeError (List Char × Deserializer) :=
  match d.fields with
  | FieldSet.Item f :: rest =>
    match sliceGet d.input f.rangeStart f.rangeEnd with
    | some bs => Except.ok (bs, { d with fields := rest })
    | none => Except.error DeserializeError.UnexpectedEndOfRecord
  | FieldSet.Seq _ :: _ => Except.error DeserializeError.UnexpectedEndOfRecord
  | [] => Except.error DeserializeError.UnexpectedEndOfRecord

/-- `Deserializer::peek_str` (de.rs:306-308): peeked bytes, UTF-8 decoded (always
valid in the ASCII model) and trimmed. -/
def Deserializer.peekStr (d : Deserializer) : Except DeserializeError (List Char) :=
  d.peekBytes.map rustTrim

/-- `Deserializer::next_str` (de.rs:310-312). -/
def Deserializer.nextStr (d : Deserializer) :
    Except DeserializeError (List Char × Deserializer) :=
  d.nextBytes.map (fun p => (rustTrim p.1, p.2))

/-- `deserialize_bool` (de.rs:335-350): more than one trimmed char is an error;
otherwise the first char (defaulting to `'0'` when blank) decides: `'0'` is
`false`, anything else `true`. -/
def Deserializer.deserializeBool (d : Deserializer) :
    Except DeserializeError (Bool × Deserializer) :=
  match d.nextStr with
  | Except.error e => Except.error e
  | Except.ok (s, d') =>
    if s.length > 1 then
      Except.error (DeserializeError.Message
        ("expected bool field to be 1 byte, got " ++ toString s.length))
    else
      let c := s.headD '0'
      if c = '0' then Except.ok (false, d') else Except.ok (true, d')

/-- `deserialize_char` (de.rs:387-398): more than one trimmed char is an error
(the source reuses the "expected bool field" message text); otherwise the first
char, defaulting to a space when the field is blank. -/
def Deserializer.deserializeChar (d : Deserializer) :
    Except DeserializeError (Char × Deserializer) :=
  match d.nextStr with
  | Except.error e => Except.error e
  | Except.ok (s, d') =>
    if s.length > 1 then
      Except.error (DeserializeError.Message
        ("expected bool field to be 1 byte, got " ++ toString s.length))
    else
      Except.ok (s.headD ' ', d')

/-- `deserialize_option` (de.rs:410-417), parametric in the wrapped type's
decoder: peek the next field's trimmed text; empty means skip the field and
produce `none`, otherwise run the wrapped decoder on the same cursor. -/
def Deserializer.deserializeOption {α : Type}
    (deT : Deserializer → Except DeserializeError (α × Deserializer))
    (d : Deserializer) : Except DeserializeError (Option α × Deserializer) :=
  match d.peekStr with
  | Except.error e => Except.error e
  | Except.ok s =>
    if s.isEmpty then
      Except.ok (none, d.skipField)
    else
      (deT d).map (fun p => (some p.1, p.2))

/-- `deserialize_unit` and `deserialize_unit_struct` (de.rs:419-431): skip one
field and produce unit, never reading the input. -/
def Deserializer.deserializeUnit (d : Deserializer) :
    Except DeserializeError (Unit × Deserializer) :=
  Except.ok ((), d.skipField)

/-- Slice the input at a leaf's range and trim, as one leaf consumed by
`next_str` does. -/
def nextStrOn (input : List Char) (f : FieldConfig) :
    Except DeserializeError (List Char) :=
  match sliceGet input f.rangeStart f.rangeEnd with
  | some bs => Except.ok (rustTrim bs)
  | none => Except.error DeserializeError.UnexpectedEndOfRecord

/-- Key of a leaf for map-shaped access (de.rs:530-537): the declared name, or the
`"{start}..{end}"` text of the range. -/
def fieldKey (f : FieldConfig) : String :=
  match f.name with
  | some n => n
  | none => toString f.rangeStart ++ ".." ++ toString f.rangeEnd

/-- `MapAccess` driving a string-keyed, string-valued map (de.rs:520-548 with
`deserialize_str` for each value): while fields remain, the key comes from the
next leaf's name (or the text form of its range) and the value from `next_str`;
a `Seq` where a leaf was expected is `UnexpectedEndOfRecord`. -/
def decodeMapFields :
    List FieldSet → List Char → Except DeserializeError (List (String × String))
  | [], _ => Except.ok []
  | FieldSet.Item f :: rest, input =>
    match nextStrOn input f with
    | Except.error e => Except.error e
    | Except.ok s =>
      match decodeMapFields rest input with
      | Except.error e => Except.error e
      | Except.ok m => Except.ok ((fieldKey f, String.mk s) :: m)
  | FieldSet.Seq _ :: _, _ => Except.error DeserializeError.UnexpectedEndOfRecord

/-- Keys a map-shaped decode would produce, leaf by leaf, in document order. -/
def leafKeys : List FieldSet → List String
  | [] => []
  | FieldSet.Item f :: rest => fieldKey f :: leafKeys rest
  | FieldSet.Seq _ :: rest => leafKeys rest

/-- String-shaped value tree mirroring a field tree: a leaf's trimmed text, or a
group of such values. -/
inductive StrValue
  | leaf (s : List Char)
  | group (vs : List StrValue)
deriving Repr

mutual

/-- One element pulled by `SeqAccess::next_element_seed` (de.rs:502-517): a leaf
decodes as its trimmed text; a `Seq` child opens a fresh `Deserializer` on the
same input and decodes all of its own children. -/
def decodeOne : FieldSet → List Char → Except DeserializeError StrValue
  | FieldSet.Item f, input => (nextStrOn input f).map StrValue.leaf
  | FieldSet.Seq xs, input => (decodeList xs input).map StrValue.group

/-- Document-order decode of a cursor's remaining fields into string-shaped
values, aborting on the first error. -/
def decodeList : List FieldSet → List Char → Except DeserializeError (List StrValue)
  | [], _ => Except.ok []
  | x :: rest, input =>
    match decodeOne x input with
    | Except.error e => Except.error e
    | Except.ok v =>
      match decodeList rest input with
      | Except.error e => Except.error e
      | Except.ok vs => Except.ok (v :: vs)

end

mutual

/-- Whether some leaf of one node has a range end beyond the input length (the
truncated-record condition). -/
def hasOOBNode : FieldSet → Nat → Bool
  | FieldSet.Item f, n => decide (n < f.rangeEnd)
  | FieldSet.Seq xs, n => hasOOBList xs n

/-- Whether some leaf of the tree has a range end beyond the input length. -/
def hasOOBList : List FieldSet → Nat → Bool
  | [], _ => false
  | x :: rest, n => hasOOBNode x n || hasOOBList rest n

end

mutual

/-- Maximum range end touched by one node of a field tree. -/
def maxEndNode : FieldSet → Nat
  | FieldSet.Item f => f.rangeEnd
  | FieldSet.Seq xs => maxEndList xs

/-- Maximum range end touched by a field tree. -/
def maxEndList : List FieldSet → Nat
  | [] => 0
  | x :: rest => max (maxEndNode x) (maxEndList rest)

end

/-- serde's default `Error::invalid_type` routed through `DeserializeError::custom`
(the `VariantAccess` impl, de.rs:563-601, calls
`invalid_type(Unexpected::UnitVariant, &expected)`), which produces the `Message`
kind with serde's standard wording. -/
def invalidTypeUnitVariant (expected : String) : DeserializeError :=
  DeserializeError.Message ("invalid type: unit variant, expected " ++ expected)

/-- `EnumAccess::variant_seed` (de.rs:550-561): the variant tag is the next
field's trimmed text, consumed from the cursor. -/
def Deserializer.variantSeed (d : Deserializer) :
    Except DeserializeError (List Char × Deserializer) :=
  d.nextStr

/-- Enum decode as serde's derived code drives it when the selected variant is
unit-style: read the tag via `variant_seed`, match it against the known variant
names (an unknown tag errors through `custom`), then `unit_variant`
(de.rs:566-568) succeeds. -/
def decodeUnitEnum (variants : List String) (d : Deserializer) :
    Except DeserializeError (String × Deserializer) :=
  match d.variantSeed with
  | Except.error e => Except.error e
  | Except.ok (tag, d') =>
    let t := String.mk tag
    if variants.contains t then Except.ok (t, d')
    else Except.error (DeserializeError.Message ("unknown variant `" ++ t ++ "`"))

/-- Enum decode as serde's derived code drives it when the selected variant
expects associated data: the tag is read and matched as above, then the
`newtype_variant_seed` / `tuple_variant` / `struct_variant` handler
(de.rs:570-601) rejects with `invalid_type(Unexpected::UnitVariant, &shape)`,
where `shape` names the expected variant shape. -/
def decodeNonUnitEnum (variants : List String) (shape : String) (d : Deserializer) :
    Except DeserializeError (String × Deserializer) :=
  match d.variantSeed with
  | Except.error e => Except.error e
  | Except.ok (tag, _) =>
    let t := String.mk tag
    if variants.contains t then Except.error (invalidTypeUnitVariant shape)
    else Except.error (DeserializeError.Message ("unknown variant `" ++ t ++ "`"))

/-- Declared width of a leaf. -/
def width (f : FieldConfig) : Nat := f.rangeEnd - f.rangeStart

/-- Modelled from the spec: per-leaf rendering of the write engine (`ser.rs`,
absent from `src/`): content shorter than the declared width is padded with the
leaf's `pad_with` on the side opposite its justification, longer content is
truncated to the width (spec §4.3); this matches every padded field asserted by
`tests/integration_test.rs::test_serialize`. -/
def padToWidth (content : List Char) (f : FieldConfig) : List Char :=
  if width f ≤ content.length then content.take (width f)
  else
    match f.justify with
    | Justify.Left => content ++ List.replicate (width f - content.length) f.pad_with
    | Justify.Right => List.replicate (width f - content.length) f.pad_with ++ content

/-- Modelled from the spec: the write engine (`ser.rs`, absent from `src/`)
composed over a record, with its field placement taken from the repository's own
`tests/integration_test.rs::test_serialize`: the padded form of each leaf is
emitted consecutively in tree order (the test asserts the 29-byte output
`"foo   bar0002349   foobar 123"` for a tree whose ranges leave a gap at 19..21
and reach 31, so placement follows declared widths, not absolute range starts). -/
def seqWrite (leaves : List (FieldConfig × List Char)) : List Char :=
  (leaves.map (fun p => padToWidth p.2 p.1)).flatten

/-- Field tree of the `Stuff` struct in `tests/integration_test.rs`, as the
derive layer expands its `fixed_width` attributes (ranges 0..6, 6..12 pad `'0'`,
12..15 pad `'0'`, 15..19, 21..27, 27..31 justified right). -/
def stuffFields : List FieldSet :=
  [ (FieldSet.new_field 0 6).name "stuff1",
    ((FieldSet.new_field 6 12).name "stuff2").pad_with '0',
    ((FieldSet.new_field 12 15).name "stuff3").pad_with '0',
    (FieldSet.new_field 15 19).name "stuff4",
    (FieldSet.new_field 21 27).name "stuff5",
    ((FieldSet.new_field 27 31).name "stuff6").justify Justify.Right ]

/-- Leaves and rendered contents of the `Stuff` value serialized in
`test_serialize`: `stuff1 = "foo"`, `stuff2 = "bar"`, `stuff3 = 234`,
`stuff4 = 9`, `stuff5 = "foobar"`, `stuff6 = "123"`. -/
def stuffLeaves : List (FieldConfig × List Char) :=
  [ (newFieldConfig 0 6, "foo".toList),
    ({ newFieldConfig 6 12 with pad_with := '0' }, "bar".toList),
    ({ newFieldConfig 12 15 with pad_with := '0' }, "234".toList),
    (newFieldConfig 15 19, "9".toList),
    (newFieldConfig 21 27, "foobar".toList),
    ({ newFieldConfig 27 31 with justify := Justify.Right }, "123".toList) ]

/-! Helper lemmas shared by the claim theorems. -/

/-- A string-shaped tree decode can only fail with `UnexpectedEndOfRecord`: every
error site reachable from `decodeList` is a bounds failure in `next_bytes` (UTF-8
decoding is total in the ASCII model and string leaves never parse). -/
theorem decodeList_error_eq (fs : List FieldSet) (input : List Char) :
    ∀ e, decodeList fs input = Except.error e →
      e = DeserializeError.UnexpectedEndOfRecord := by
  refine decodeList.induct
    (fun x input => ∀ e, decodeOne x input = Except.error e →
      e = DeserializeError.UnexpectedEndOfRecord)
    (fun fs input => ∀ e, decodeList fs input = Except.error e →
      e = DeserializeError.UnexpectedEndOfRecord)
    ?_ ?_ ?_ ?_ ?_ ?_ fs input
  · intro f input e h
    unfold decodeOne nextStrOn at h
    cases hs : sliceGet input f.rangeStart f.rangeEnd <;> rw [hs] at h <;>
      simp [Except.map] at h
    exact h.symm
  · intro xs input ih e h
    unfold decodeOne at h
    cases hs : decodeList xs input with
    | error e' => rw [hs] at h; simp [Except.map] at h; subst h; exact ih e' hs
    | ok v => rw [hs] at h; simp [Except.map] at h
  · intro input e h
    simp [decodeList] at h
  · intro x rest input e0 h0 ih1 e h
    unfold decodeList at h
    rw [h0] at h
    cases h
    exact ih1 e0 h0
  · intro x rest input v hv e0 h0 ih1 ih2 e h
    unfold decodeList at h
    rw [hv, h0] at h
    cases h
    exact ih2 e0 h0
  · intro x rest input v hv vs hvs ih1 ih2 e h
    unfold decodeList at h
    rw [hv, hvs] at h
    cases h

/-- A single node decode can only fail with `UnexpectedEndOfRecord`. -/
theorem decodeOne_error_eq (x : FieldSet) (input : List Char) :
    ∀ e, decodeOne x input = Except.error e →
      e = DeserializeError.UnexpectedEndOfRecord := by
  intro e h
  have h' : decodeList [x] input = Except.error e := by
    unfold decodeList
    rw [h]
  exact decodeList_error_eq [x] input e h'

/-- A tree containing any leaf whose range end exceeds the input length decodes to
the `UnexpectedEndOfRecord` error. -/
theorem decodeList_oob (fs : List FieldSet) (input : List Char) :
    hasOOBList fs input.length = true →
    decodeList fs input = Except.error DeserializeError.UnexpectedEndOfRecord := by
  refine decodeList.induct
    (fun x input => hasOOBNode x input.length = true →
      decodeOne x input = Except.error DeserializeError.UnexpectedEndOfRecord)
    (fun fs input => hasOOBList fs input.length = true →
      decodeList fs input = Except.error DeserializeError.UnexpectedEndOfRecord)
    ?_ ?_ ?_ ?_ ?_ ?_ fs input
  · intro f input h
    unfold hasOOBNode at h
    have hlt : input.length < f.rangeEnd := of_decide_eq_true h
    unfold decodeOne nextStrOn sliceGet
    rw [if_neg]
    · rfl
    · omega
  · intro xs input ih h
    unfold hasOOBNode at h
    unfold decodeOne
    rw [ih h]
    rfl
  · intro input h
    simp [hasOOBList] at h
  · intro x rest input e0 h0 ih1 h
    unfold decodeList
    rw [h0, decodeOne_error_eq x input e0 h0]
  · intro x rest input v hv e0 h0 ih1 ih2 h
    unfold decodeList
    rw [hv, h0, decodeList_error_eq rest input e0 h0]
  · intro x rest input v hv vs hvs ih1 ih2 h
    unfold hasOOBList at h
    rcases Bool.or_eq_true_iff.mp h with h' | h'
    · rw [ih1 h'] at hv
      cases hv
    · rw [ih2 h'] at hvs
      cases hvs

/-- The padded form of a leaf always has exactly the leaf's declared width,
whether the content is padded or truncated. -/
theorem padToWidth_length (c : List Char) (f : FieldConfig) :
    (padToWidth c f).length = width f := by
  unfold padToWidth
  by_cases hw : width f ≤ c.length
  · rw [if_pos hw]
    simp [List.length_take]
    omega
  · rw [if_neg hw]
    cases f.justify <;> simp <;> omega

/-! Claim theorems. -/

/-- C1: for every field tree and input buffer, a leaf whose byte range end exceeds
the buffer length makes the decode fail with the `UnexpectedEndOfRecord` kind, and
the bounds check happens per field inside `next_bytes` as the field is consumed; a
record shorter than the declared ranges yields this error rather than a panic or a
silent zero-fill (every function of the model is total and no `ok` result is
produced). -/
theorem c1_truncated_record_fails_ueor (fs : List FieldSet) (input : List Char)
    (h : hasOOBList fs input.length = true) :
    decodeList fs input = Except.error DeserializeError.UnexpectedEndOfRecord ∧
    ∀ (f : FieldConfig) (rest : List FieldSet) (buf : List Char),
      buf.length < f.rangeEnd →
      Deserializer.nextBytes { fields := FieldSet.Item f :: rest, input := buf }
        = Except.error DeserializeError.UnexpectedEndOfRecord := by
  constructor
  · exact decodeList_oob fs input h
  · intro f rest buf hlt
    have hs : sliceGet buf f.rangeStart f.rangeEnd = none := by
      unfold sliceGet
      rw [if_neg]
      omega
    simp [Deserializer.nextBytes, hs]

/-- C1 witness: the repository's truncated-record test
(`test_from_fixed_record_when_input_is_too_small`): the 19-byte input
`"   foo000bar234   9"` against the `Stuff` field tree (which reaches byte 31)
fails with `UnexpectedEndOfRecord`. -/
theorem c1_truncated_record_fails_ueor_witness :
    hasOOBList stuffFields ("   foo000bar234   9".toList).length = true ∧
    decodeList stuffFields "   foo000bar234   9".toList
      = Except.error DeserializeError.UnexpectedEndOfRecord :=
  ⟨by rfl,
   (c1_truncated_record_fails_ueor stuffFields "   foo000bar234   9".toList (by rfl)).1⟩

/-- C2: a leaf of declared width `w` with rendered content shorter than `w` is
emitted as exactly `w` bytes: content followed by `w - len` pad characters under
`Left` justification, pad characters followed by content under `Right`
justification; and the pad character of a freshly constructed field defaults to a
space. -/
theorem c2_pad_justify_defaults (f : FieldConfig) (c : List Char)
    (h : c.length < width f) (s e : Nat) :
    (padToWidth c f).length = width f ∧
    (f.justify = Justify.Left →
      padToWidth c f = c ++ List.replicate (width f - c.length) f.pad_with) ∧
    (f.justify = Justify.Right →
      padToWidth c f = List.replicate (width f - c.length) f.pad_with ++ c) ∧
    (newFieldConfig s e).pad_with = ' ' := by
  have hn : ¬ (width f ≤ c.length) := by omega
  refine ⟨padToWidth_length c f, ?_, ?_, rfl⟩
  · intro hj
    unfold padToWidth
    rw [if_neg hn, hj]
  · intro hj
    unfold padToWidth
    rw [if_neg hn, hj]

/-- C2 witness: the two padded fields of `test_serialize`: `"123"` right-justified
in width 4 gives `" 123"`, and `"foo"` left-justified in width 6 with the default
space pad gives `"foo   "`. -/
theorem c2_pad_justify_defaults_witness :
    ("123".toList.length < width { newFieldConfig 27 31 with justify := Justify.Right }) ∧
    padToWidth "123".toList { newFieldConfig 27 31 with justify := Justify.Right }
      = " 123".toList ∧
    padToWidth "foo".toList (newFieldConfig 0 6) = "foo   ".toList := by
  refine ⟨by decide, ?_, ?_⟩
  · have h := (c2_pad_justify_defaults
      { newFieldConfig 27 31 with justify := Justify.Right } "123".toList
      (by decide) 0 6).2.2.1 rfl
    rw [h]
    decide
  · have h := (c2_pad_justify_defaults (newFieldConfig 0 6) "foo".toList
      (by decide) 0 6).2.1 rfl
    rw [h]
    decide

/-- C3 counterexample: on the repository's own `test_serialize` fixture the write
engine's output is the 29-byte string asserted by the test, while the maximum
range end of the tree is 31 — the buffer does not cover the maximum range end and
the two bytes at 19..21 that no leaf covers are compacted away, refuting the
claim. -/
theorem c3_gap_compaction_counterexample :
    seqWrite stuffLeaves = "foo   bar0002349   foobar 123".toList ∧
    (seqWrite stuffLeaves).length = 29 ∧
    maxEndList stuffFields = 31 ∧
    ¬ (maxEndList stuffFields ≤ (seqWrite stuffLeaves).length) := by
  refine ⟨by decide, by rfl, by rfl, by decide⟩

/-- C3 amended: the write engine emits the padded rendering of each leaf
consecutively in tree order, so the output buffer's size is the sum of the
declared leaf widths (not the maximum range end), and on the `test_serialize`
fixture this reproduces the test's expected bytes exactly. -/
theorem c3_sequential_write_length :
    (∀ leaves : List (FieldConfig × List Char),
      (seqWrite leaves).length = (leaves.map (fun p => width p.1)).sum) ∧
    seqWrite stuffLeaves = "foo   bar0002349   foobar 123".toList := by
  constructor
  · intro leaves
    induction leaves with
    | nil => rfl
    | cons p rest ih =>
      show (padToWidth p.2 p.1 ++ seqWrite rest).length
        = width p.1 + (rest.map (fun p => width p.1)).sum
      rw [List.length_append, padToWidth_length, ih]
  · decide

/-- C4: boolean decode of a field whose trimmed text is `"0"` or blank yields
`false`; any other single trimmed character yields `true`; more than one trimmed
character is a hard error (the `Message` kind carrying the source's wording). -/
theorem c4_bool_decode (d d' : Deserializer) (s : List Char)
    (h : d.nextStr = Except.ok (s, d')) :
    ((s = [] ∨ s = ['0']) → d.deserializeBool = Except.ok (false, d')) ∧
    (s.length = 1 → s ≠ ['0'] → d.deserializeBool = Except.ok (true, d')) ∧
    (1 < s.length → d.deserializeBool = Except.error (DeserializeError.Message
      ("expected bool field to be 1 byte, got " ++ toString s.length))) := by
  unfold Deserializer.deserializeBool
  rw [h]
  refine ⟨?_, ?_, ?_⟩
  · rintro (rfl | rfl) <;> rfl
  · intro h1 h0
    match s, h1 with
    | [c], _ =>
      have hc : c ≠ '0' := fun hceq => h0 (by rw [hceq])
      simp [hc]
  · intro h1
    match s, h1 with
    | a :: b :: t, _ => simp

/-- C4 witness: the `bool_de` unit test inputs: `"1"` decodes to `true` and `"0"`
to `false` over the single field `0..1`. -/
theorem c4_bool_decode_witness :
    (Deserializer.new "1".toList (FieldSet.Seq [FieldSet.new_field 0 1])).deserializeBool
      = Except.ok (true, { fields := [], input := "1".toList }) ∧
    (Deserializer.new "0".toList (FieldSet.Seq [FieldSet.new_field 0 1])).deserializeBool
      = Except.ok (false, { fields := [], input := "0".toList }) :=
  ⟨(c4_bool_decode _ _ _ (by rfl)).2.1 (by decide) (by decide),
   (c4_bool_decode _ _ _ (by rfl)).1 (Or.inr rfl)⟩

/-- C5: decoding `Option<T>` peeks the next leaf; an empty-after-trim slice skips
the field (no wrapped decoder runs — the result is fixed for every `deT`) and
yields the absent variant, while a non-empty slice yields the present variant
holding exactly what `T`'s own decoder produces from the same cursor position. -/
theorem c5_option_decode {α : Type}
    (deT : Deserializer → Except DeserializeError (α × Deserializer))
    (d : Deserializer) (s : List Char) (h : d.peekStr = Except.ok s) :
    (s = [] → Deserializer.deserializeOption deT d = Except.ok (none, d.skipField)) ∧
    (s ≠ [] → Deserializer.deserializeOption deT d
      = (deT d).map (fun p => (some p.1, p.2))) := by
  unfold Deserializer.deserializeOption
  rw [h]
  constructor
  · rintro rfl
    rfl
  · intro hne
    have he : s.isEmpty = false := by
      cases s with
      | nil => exact absurd rfl hne
      | cons a t => rfl
    simp [he]

/-- C5 witness: the `option_de` unit test inputs over field `0..1`: a blank field
decoded as an optional char is absent, and `"c"` is present with the char decoder
running on the same field. -/
theorem c5_option_decode_witness :
    Deserializer.deserializeOption Deserializer.deserializeChar
        (Deserializer.new " ".toList (FieldSet.Seq [FieldSet.new_field 0 1]))
      = Except.ok (none,
          (Deserializer.new " ".toList (FieldSet.Seq [FieldSet.new_field 0 1])).skipField) ∧
    Deserializer.deserializeOption Deserializer.deserializeChar
        (Deserializer.new "c".toList (FieldSet.Seq [FieldSet.new_field 0 1]))
      = (Deserializer.deserializeChar
          (Deserializer.new "c".toList (FieldSet.Seq [FieldSet.new_field 0 1]))).map
            (fun p => (some p.1, p.2)) :=
  ⟨(c5_option_decode _ _ _ (by rfl)).1 rfl,
   (c5_option_decode _ _ _ (by rfl)).2 (by decide)⟩

/-- C6: decoding an optional value when the next node at the cursor is a `Seq` (a
nested composite) fails with `UnexpectedEndOfRecord` for every wrapped decoder,
rather than consuming the group. -/
theorem c6_option_over_group_fails {α : Type}
    (deT : Deserializer → Except DeserializeError (α × Deserializer))
    (xs rest : List FieldSet) (input : List Char) :
    Deserializer.deserializeOption deT
        { fields := FieldSet.Seq xs :: rest, input := input }
      = Except.error DeserializeError.UnexpectedEndOfRecord := rfl

/-- C7: every key a map-shaped decode produces is the leaf's declared name or,
when absent, the `"start..end"` text of its range; and the concrete tree
`[0..4 named "numbers", 4..8 named "letters"]` over `"1234abcd"` decodes to the
map `{"numbers": "1234", "letters": "abcd"}`. -/
theorem c7_map_keys_and_scenario :
    (∀ (fs : List FieldSet) (input : List Char),
      ∀ m, decodeMapFields fs input = Except.ok m → m.map Prod.fst = leafKeys fs) ∧
    decodeMapFields (FieldSet.Seq [(FieldSet.new_field 0 4).name "numbers",
        (FieldSet.new_field 4 8).name "letters"]).intoIter "1234abcd".toList
      = Except.ok [("numbers", "1234"), ("letters", "abcd")] := by
  constructor
  · intro fs input
    induction fs with
    | nil =>
      intro m h
      unfold decodeMapFields at h
      cases h
      rfl
    | cons x rest ih =>
      intro m h
      cases x with
      | Item f =>
        unfold decodeMapFields at h
        cases hs : nextStrOn input f with
        | error e => rw [hs] at h; cases h
        | ok s =>
          rw [hs] at h
          cases hm : decodeMapFields rest input with
          | error e => rw [hm] at h; cases h
          | ok m' =>
            rw [hm] at h
            cases h
            show fieldKey f :: m'.map Prod.fst = leafKeys (FieldSet.Item f :: rest)
            rw [ih m' hm]
            rfl
      | Seq xs =>
        unfold decodeMapFields at h
        cases h
  · rfl

/-- C7 witness: the produced keys of the concrete scenario match the leaf keys of
its tree. -/
theorem c7_map_keys_and_scenario_witness :
    ([("numbers", "1234"), ("letters", "abcd")] : List (String × String)).map Prod.fst
      = leafKeys [(FieldSet.new_field 0 4).name "numbers",
          (FieldSet.new_field 4 8).name "letters"] :=
  c7_map_keys_and_scenario.1
    [(FieldSet.new_field 0 4).name "numbers", (FieldSet.new_field 4 8).name "letters"]
    "1234abcd".toList [("numbers", "1234"), ("letters", "abcd")] (by rfl)

/-- C8 counterexample: selecting a data-carrying variant fails, but with the
`Message` kind produced by serde's `invalid_type` (routed through `custom`), which
is not the `Unsupported`/`WontImplement` realisation of the spec's
`UnsupportedShape` kind — refuting the claimed error kind at a concrete input. -/
theorem c8_nonunit_variant_counterexample :
    decodeNonUnitEnum ["Foo"] "newtype variant"
        (Deserializer.new "Foo".toList (FieldSet.Seq [FieldSet.new_field 0 3]))
      = Except.error (DeserializeError.Message
          "invalid type: unit variant, expected newtype variant") ∧
    DeserializeError.isUnsupportedShape (DeserializeError.Message
        "invalid type: unit variant, expected newtype variant") = false := by
  exact ⟨rfl, rfl⟩

/-- C8 amended: enum decoding reads the next leaf's trimmed text as the variant
tag; a unit variant whose tag is known succeeds, while selecting a variant that
expects associated data fails permanently with the `Message` kind carrying serde's
`invalid_type` wording — an error that is neither a parse-failure kind nor the
`Unsupported`/`WontImplement` kind. -/
theorem c8_enum_variant_shapes (variants : List String) (shape : String)
    (d d' : Deserializer) (tag : List Char)
    (h : d.nextStr = Except.ok (tag, d'))
    (hm : variants.contains (String.mk tag) = true) :
    decodeUnitEnum variants d = Except.ok (String.mk tag, d') ∧
    decodeNonUnitEnum variants shape d
      = Except.error (invalidTypeUnitVariant shape) ∧
    (invalidTypeUnitVariant shape).isUnsupportedShape = false ∧
    (invalidTypeUnitVariant shape).isParseFailure = false := by
  have hmem : String.mk tag ∈ variants := by simpa using hm
  unfold decodeUnitEnum decodeNonUnitEnum Deserializer.variantSeed
  rw [h]
  refine ⟨by simp [hmem], by simp [hmem], rfl, rfl⟩

/-- C8 witness: the `test_lowercase_serde_option_for_enum` fixture: tag `"bar"`
against variants `{foo, bar, baz}` selects the unit variant, and the same tag
against a newtype-variant shape fails with the `invalid_type` message. -/
theorem c8_enum_variant_shapes_witness :
    decodeUnitEnum ["foo", "bar", "baz"]
        (Deserializer.new "bar".toList (FieldSet.Seq [FieldSet.new_field 0 3]))
      = Except.ok ("bar", { fields := [], input := "bar".toList }) ∧
    decodeNonUnitEnum ["foo", "bar", "baz"] "newtype variant"
        (Deserializer.new "bar".toList (FieldSet.Seq [FieldSet.new_field 0 3]))
      = Except.error (invalidTypeUnitVariant "newtype variant") := by
  have h := c8_enum_variant_shapes ["foo", "bar", "baz"] "newtype variant"
    (Deserializer.new "bar".toList (FieldSet.Seq [FieldSet.new_field 0 3]))
    { fields := [], input := "bar".toList } "bar".toList (by rfl) (by decide)
  exact ⟨h.1, h.2.1⟩

/-- C9: character decode requires at most one character after trimming: a blank
field yields the space character `' '` (success, never an error), a single
trimmed character yields that character, and more than one trimmed character is
an error. -/
theorem c9_char_decode (d d' : Deserializer) (s : List Char)
    (h : d.nextStr = Except.ok (s, d')) :
    (s = [] → d.deserializeChar = Except.ok (' ', d')) ∧
    (∀ c, s = [c] → d.deserializeChar = Except.ok (c, d')) ∧
    (1 < s.length → d.deserializeChar = Except.error (DeserializeError.Message
      ("expected bool field to be 1 byte, got " ++ toString s.length))) := by
  unfold Deserializer.deserializeChar
  rw [h]
  refine ⟨?_, ?_, ?_⟩
  · rintro rfl; rfl
  · rintro c rfl; rfl
  · intro h1
    match s, h1 with
    | a :: b :: t, _ => simp

/-- C9 witness: the `test_does_not_panic_for_empty_char` and `char_de` fixtures:
an all-blank field decodes to `' '` and `"f"` decodes to `'f'`. -/
theorem c9_char_decode_witness :
    (Deserializer.new "  ".toList (FieldSet.Seq [FieldSet.new_field 0 1])).deserializeChar
      = Except.ok (' ', { fields := [], input := "  ".toList }) ∧
    (Deserializer.new "f".toList (FieldSet.Seq [FieldSet.new_field 0 1])).deserializeChar
      = Except.ok ('f', { fields := [], input := "f".toList }) :=
  ⟨(c9_char_decode _ _ _ (by rfl)).1 rfl,
   (c9_char_decode _ _ _ (by rfl)).2.1 'f' rfl⟩

/-- C10: decoding a unit or unit-struct value always succeeds: it advances the
cursor past one field without reading any byte of the input (the result only
moves to the tail of the field list, for every field list — including an empty
one — and every input, including one the skipped field's range would overrun). -/
theorem c10_unit_decode_total (fields : List FieldSet) (input : List Char) :
    Deserializer.deserializeUnit { fields := fields, input := input }
      = Except.ok ((), { fields := fields.tail, input := input }) := rfl

end FixedWidth
